import Mathlib

/-!
Shallow embedding of `server.js` (Minecraft collective-achievements broadcast
server): the augmentation engine `augmentChallengeData` / `toTitleCase`, the
`POST /update` handler (validation, team normalization, state replacement,
SSE fan-out via an EventEmitter), and the `/stream` subscriber registry.

Conventions of the embedding:
* JS objects with string keys are association lists in insertion order
  (`Object.entries` preserves it); JS object lookup is `List.lookup`.
* Optional JS fields are `Option String`; JS truthiness for strings
  (`undefined`/`null`/`""` are falsy) is `jsTruthy` and `a || b` is `jsOr`.
* The mutable module globals (`challenge_title`, `augmented_challenge_list`,
  `TEAM_INFO.teams`, the set of registered SSE `updateHandler`s) form
  `ServerState`; a request handler is a function from state and request to
  the new state, the HTTP response and the list of SSE deliveries made.
* The one reachable throwing path inside the try block of the handler is
  `Object.entries(data.challenges)` throwing a `TypeError` when the
  `challenges` key holds `null` (or another non-object primitive); it is
  modelled by the `ChallengesField.nullLike` constructor, which the embedded
  handler routes to the `catch` branch exactly where the source throws.
-/

namespace MCServer

def FALLBACK_ICON : String := "https://minecraft.wiki/images/Invicon_Grass_Block.png"

def DEFAULT_TEAM_COLORS : List String := ["#229cc5", "#d1433b"]

/-- A normalized team as stored in `TEAM_INFO.teams` (name and color strings). -/
structure Team where
  name : String
  color : String
deriving DecidableEq, Repr

def DEFAULT_TEAMS : List Team :=
  [⟨"Team A", DEFAULT_TEAM_COLORS.getD 0 ""⟩, ⟨"Team B", DEFAULT_TEAM_COLORS.getD 1 ""⟩]

/-- One entry of `CHALLENGE_METADATA` (`data.json`): every field optional. -/
structure MetaEntry where
  name : Option String
  icon : Option String
  description : Option String
deriving DecidableEq, Repr

/-- `CHALLENGE_METADATA`: a JS object keyed by challenge id. -/
abbrev Metadata := List (String × MetaEntry)

/-- One caller-supplied challenge record in the `/update` body. -/
structure ChallengeInput where
  done : Bool
  description : Option String
  team : Option String
deriving DecidableEq, Repr

/-- A fully augmented challenge record as produced by `augmentChallengeData`. -/
structure AugmentedChallenge where
  done : Bool
  name : String
  icon : String
  description : String
  team : String
  team_color : String
deriving DecidableEq, Repr

/-- JS `v || d` for an optional string: `undefined`, `null` and `""` are falsy. -/
def jsOr (v : Option String) (d : String) : String :=
  match v with
  | none => d
  | some s => if s = "" then d else s

/-- JS truthiness of an optional string value. -/
def jsTruthy (v : Option String) : Bool :=
  match v with
  | none => false
  | some s => s != ""

/-- JS `str.split(":")` modelled on the character list of the string. -/
def splitOnColon : List Char → List (List Char)
  | [] => [[]]
  | c :: cs =>
    if c = ':' then [] :: splitOnColon cs
    else (c :: (splitOnColon cs).headD []) :: (splitOnColon cs).tail

/-- JS `str.trim()`: strip whitespace from both ends of the string. -/
def jsTrim (s : String) : String :=
  ⟨((s.data.dropWhile Char.isWhitespace).reverse.dropWhile Char.isWhitespace).reverse⟩

/-- JS `challengeId.includes(":") ? challengeId.split(":").pop() : challengeId`. -/
def displayNameOf (challengeId : String) : String :=
  if ':' ∈ challengeId.data then ⟨(splitOnColon challengeId.data).getLastD []⟩
  else challengeId

/-- JS `str.charAt(0).toUpperCase() + str.slice(1).toLowerCase()`. -/
def toTitleCase (s : String) : String :=
  match s.data with
  | [] => ""
  | c :: cs => ⟨c.toUpper :: cs.map Char.toLower⟩

/-- Assignment `teamColorMap[k] = v` on a JS object modelled as an association list. -/
def setEntry (m : List (String × String)) (k v : String) : List (String × String) :=
  (k, v) :: m.filter (fun p => p.1 != k)

/-- The `teamColorMap` built by the `forEach` loop of `augmentChallengeData`:
`teamColorMap[team.name] = team.color || DEFAULT_TEAM_COLORS[idx % DEFAULT_TEAM_COLORS.length]`. -/
def buildTeamColorMap (teams : List Team) : List (String × String) :=
  teams.enum.foldl
    (fun m p =>
      setEntry m p.2.name
        (if p.2.color = "" then
          DEFAULT_TEAM_COLORS.getD (p.1 % DEFAULT_TEAM_COLORS.length) ""
        else p.2.color))
    []

/-- First phase of the per-challenge loop body: the record built before the
team fields are assigned (`done`, `name`, `icon`, `description`); the team
fields are initialized to the empty sentinel and set by `applyTeam`. -/
def baseAugment (metadata : Metadata) (challengeId : String)
    (challengeInfo : ChallengeInput) : AugmentedChallenge :=
  let displayName := displayNameOf challengeId
  match metadata.lookup challengeId with
  | some m =>
    { done := challengeInfo.done
      name := jsOr m.name (toTitleCase displayName)
      icon := jsOr m.icon FALLBACK_ICON
      description :=
        if jsTruthy challengeInfo.description
            && jsTrim (challengeInfo.description.getD "") != "" then
          challengeInfo.description.getD ""
        else if jsTruthy m.description then m.description.getD ""
        else ""
      team := ""
      team_color := "" }
  | none =>
    { done := challengeInfo.done
      name := toTitleCase displayName
      icon := FALLBACK_ICON
      description := jsOr challengeInfo.description ""
      team := ""
      team_color := "" }

/-- Second phase of the per-challenge loop body, over the `team` field value:
`if (challengeInfo.team && teamColorMap[challengeInfo.team]) { ... } else { ... }`. -/
def applyTeam (teamColorMap : List (String × String)) (teamField : Option String)
    (augmented : AugmentedChallenge) : AugmentedChallenge :=
  match teamField with
  | some t =>
    if t != "" then
      match teamColorMap.lookup t with
      | some c =>
        if c != "" then { augmented with team := t, team_color := c }
        else { augmented with team := "", team_color := "" }
      | none => { augmented with team := "", team_color := "" }
    else { augmented with team := "", team_color := "" }
  | none => { augmented with team := "", team_color := "" }

/-- The whole per-challenge loop body of `augmentChallengeData`. -/
def augmentOne (metadata : Metadata) (teamColorMap : List (String × String))
    (challengeId : String) (challengeInfo : ChallengeInput) : AugmentedChallenge :=
  applyTeam teamColorMap challengeInfo.team (baseAugment metadata challengeId challengeInfo)

/-- Function `augmentChallengeData(challengeData, teamInfo)`: `teams = none` models both
a teamInfo wrapper with `teams: null` and an absent wrapper. -/
def augmentChallengeData (metadata : Metadata)
    (challengeData : List (String × ChallengeInput)) (teams : Option (List Team)) :
    List (String × AugmentedChallenge) :=
  let teamColorMap :=
    match teams with
    | some ts => buildTeamColorMap ts
    | none => []
  challengeData.map (fun p => (p.1, augmentOne metadata teamColorMap p.1 p.2))

/-- A raw team object inside the request body (fields may be absent/falsy). -/
structure RawTeam where
  name : Option String
  color : Option String
deriving DecidableEq, Repr

/-- The value found under the `teams` key of the request body. -/
inductive TeamsField where
  | arr (ts : List RawTeam)
  | nonArray
deriving DecidableEq, Repr

/-- The value found under the `challenges` key of the request body.
`nullLike` stands for `null` (or another non-object primitive), on which
`Object.entries` inside `augmentChallengeData` throws a `TypeError`. -/
inductive ChallengesField where
  | valid (cd : List (String × ChallengeInput))
  | nullLike
deriving DecidableEq, Repr

/-- A parsed `/update` request body (a JS object); `none` fields model absent keys. -/
structure UpdateBody where
  title : Option String
  challenges : Option ChallengesField
  teams : Option TeamsField
deriving DecidableEq, Repr

/-- The HTTP response sent by the `/update` handler. -/
inductive Response where
  | ok (message : String)
  | badRequest (error : String)
deriving DecidableEq, Repr

def Response.status : Response → Nat
  | .ok _ => 200
  | .badRequest _ => 400

/-- The mutable module state of `server.js`: `CHALLENGE_METADATA` (read-only
after startup), `challenge_title`, `augmented_challenge_list`,
`TEAM_INFO.teams`, and the list of registered SSE `updateHandler`s
(identified by handles, in registration order). -/
structure ServerState where
  metadata : Metadata
  challenge_title : String
  augmented_challenge_list : List (String × AugmentedChallenge)
  teams : Option (List Team)
  subscribers : List Nat
deriving DecidableEq, Repr

/-- Normalization `data.teams.map((team, idx) => ({name: team.name || DEFAULT_TEAMS[idx].name,
color: team.color || DEFAULT_TEAM_COLORS[idx % DEFAULT_TEAM_COLORS.length]}))`. -/
def normalizeTeams (ts : List RawTeam) : List Team :=
  ts.enum.map (fun p =>
    { name := jsOr p.2.name ((DEFAULT_TEAMS.getD p.1 ⟨"", ""⟩).name)
      color := jsOr p.2.color (DEFAULT_TEAM_COLORS.getD (p.1 % DEFAULT_TEAM_COLORS.length) "") })

/-- The `teams` handling of the `/update` handler: an array of exactly two
entries is normalized, anything else (wrong length, non-array, absent key)
yields `null`. -/
def effectiveTeams (tf : Option TeamsField) : Option (List Team) :=
  match tf with
  | some (.arr ts) => if ts.length = 2 then some (normalizeTeams ts) else none
  | some .nonArray => none
  | none => none

def hexDigit (n : Nat) : Char :=
  if n < 10 then Char.ofNat (48 + n) else Char.ofNat (87 + n)

/-- JSON escaping of one character as performed by `JSON.stringify`. -/
def jsonEscapeChar (c : Char) : String :=
  if c = '\"' then "\\\""
  else if c = '\\' then "\\\\"
  else if c = '\n' then "\\n"
  else if c = '\r' then "\\r"
  else if c = '\t' then "\\t"
  else if c = '\x08' then "\\b"
  else if c = '\x0c' then "\\f"
  else if c.toNat < 32 then
    "\\u00" ++ String.singleton (hexDigit (c.toNat / 16))
      ++ String.singleton (hexDigit (c.toNat % 16))
  else String.singleton c

def jsonString (s : String) : String :=
  "\"" ++ String.join (s.data.map jsonEscapeChar) ++ "\""

def joinComma (l : List String) : String := String.intercalate "," l

/-- JSON serialization of one augmented challenge as JSON.stringify produces it (keys in insertion order). -/
def jsonAugmented (a : AugmentedChallenge) : String :=
  "\x7b\"done\":" ++ (if a.done then "true" else "false")
    ++ ",\"name\":" ++ jsonString a.name
    ++ ",\"icon\":" ++ jsonString a.icon
    ++ ",\"description\":" ++ jsonString a.description
    ++ ",\"team\":" ++ jsonString a.team
    ++ ",\"team_color\":" ++ jsonString a.team_color
    ++ "\x7d"

def jsonChallenges (l : List (String × AugmentedChallenge)) : String :=
  "\x7b" ++ joinComma (l.map (fun p => jsonString p.1 ++ ":" ++ jsonAugmented p.2)) ++ "\x7d"

def jsonTeam (t : Team) : String :=
  "\x7b\"name\":" ++ jsonString t.name ++ ",\"color\":" ++ jsonString t.color ++ "\x7d"

def jsonTeams : Option (List Team) → String
  | none => "null"
  | some ts => "[" ++ joinComma (ts.map jsonTeam) ++ "]"

/-- The `message` built by the `/update` handler: `JSON.stringify` of the
snapshot object with keys `title`, `challenges`, `teams`. -/
def serializeSnapshot (title : String) (challenges : List (String × AugmentedChallenge))
    (teams : Option (List Team)) : String :=
  "\x7b\"title\":" ++ jsonString title
    ++ ",\"challenges\":" ++ jsonChallenges challenges
    ++ ",\"teams\":" ++ jsonTeams teams
    ++ "\x7d"

/-- The result of one `/update` request: the state after the handler returns,
the HTTP response, and the SSE deliveries (subscriber handle, payload) made
by `challengeUpdates.emit`. -/
structure UpdateResult where
  state : ServerState
  response : Response
  deliveries : List (Nat × String)
deriving DecidableEq, Repr

/-- The `POST /update` handler. `body = none` models a request body that is
not an object. The mutation order follows the source: `TEAM_INFO.teams` and
`challenge_title` are assigned before `augmentChallengeData` runs, so on the
`nullLike` throwing path the `catch` branch answers 400 with those two
already replaced while `augmented_challenge_list` is untouched. -/
def postUpdate (st : ServerState) (body : Option UpdateBody) : UpdateResult :=
  match body with
  | none => ⟨st, .badRequest "Invalid JSON format. Expected a dictionary.", []⟩
  | some data =>
    match data.title, data.challenges with
    | some title, some ch =>
      let newTeams := effectiveTeams data.teams
      let st1 := { st with teams := newTeams, challenge_title := title }
      match ch with
      | .nullLike => ⟨st1, .badRequest "Malformed JSON.", []⟩
      | .valid cd =>
        let newList := augmentChallengeData st.metadata cd newTeams
        let st2 := { st1 with augmented_challenge_list := newList }
        let message :=
          serializeSnapshot st2.challenge_title st2.augmented_challenge_list st2.teams
        ⟨st2, .ok "Challenge list updated.",
          st2.subscribers.map (fun s => (s, message))⟩
    | _, _ =>
      ⟨st, .badRequest "Missing \x27title\x27 or \x27challenges\x27 in request data.", []⟩

/-- Registration `challengeUpdates.on of updateHandler` on a new `/stream` connection. -/
def subscribe (st : ServerState) (handle : Nat) : ServerState :=
  { st with subscribers := st.subscribers ++ [handle] }

/-- Removal `challengeUpdates.removeListener of updateHandler` on disconnect. -/
def unsubscribe (st : ServerState) (handle : Nat) : ServerState :=
  { st with subscribers := st.subscribers.erase handle }

/-- A sample pre-request state: title `OLD`, one stored challenge, no teams. -/
def preState : ServerState :=
  { metadata := [], challenge_title := "OLD",
    augmented_challenge_list := [("c", ⟨true, "C", FALLBACK_ICON, "", "", ""⟩)],
    teams := none, subscribers := [] }

/-- A sample state with three registered stream subscribers. -/
def subsState : ServerState :=
  { metadata := [], challenge_title := "t", augmented_challenge_list := [],
    teams := none, subscribers := [1, 2, 3] }

/-- Amended description rule (C2): with a metadata entry the caller description
wins when non-empty after trimming, else a non-empty metadata description,
else empty; without a metadata entry the caller description is used whenever
truthy, even when it is whitespace-only. -/
def amendedDescriptionRule (metadata : Metadata) (challengeId : String)
    (inputDesc : Option String) : String :=
  match List.lookup challengeId metadata with
  | some m =>
    if jsTrim (inputDesc.getD "") != "" then inputDesc.getD ""
    else if jsTruthy m.description then m.description.getD ""
    else ""
  | none => jsOr inputDesc ""

/-- Unfolding equation for `splitOnColon` on a nonempty list. -/
theorem splitOnColon_cons (c : Char) (cs : List Char) :
    splitOnColon (c :: cs) = if c = ':' then [] :: splitOnColon cs
      else (c :: (splitOnColon cs).headD []) :: (splitOnColon cs).tail := rfl

theorem splitOnColon_ne_nil (l : List Char) : splitOnColon l ≠ [] := by
  cases l with
  | nil => simp [splitOnColon]
  | cons c cs =>
    rw [splitOnColon_cons]
    split <;> simp

theorem splitOnColon_no_colon : ∀ (l : List Char), ':' ∉ l → splitOnColon l = [l] := by
  intro l
  induction l with
  | nil => intro _; rfl
  | cons c cs ih =>
    intro h
    have hc : ¬ c = ':' := fun hh => h (List.mem_cons.mpr (Or.inl hh.symm))
    have hcs : ':' ∉ cs := fun hh => h (List.mem_cons_of_mem c hh)
    rw [splitOnColon_cons, if_neg hc, ih hcs]
    rfl

theorem splitOnColon_length_ge_two : ∀ (a b : List Char),
    2 ≤ (splitOnColon (a ++ ':' :: b)).length := by
  intro a
  induction a with
  | nil =>
    intro b
    have h1 : 0 < (splitOnColon b).length := List.length_pos.mpr (splitOnColon_ne_nil b)
    show 2 ≤ (splitOnColon (':' :: b)).length
    rw [splitOnColon_cons, if_pos rfl, List.length_cons]
    omega
  | cons c a' ih =>
    intro b
    show 2 ≤ (splitOnColon (c :: (a' ++ ':' :: b))).length
    have h2 := ih b
    have h1 : 0 < (splitOnColon (a' ++ ':' :: b)).length := by omega
    rw [splitOnColon_cons]
    by_cases hc : c = ':'
    · rw [if_pos hc, List.length_cons]
      omega
    · rw [if_neg hc, List.length_cons, List.length_tail]
      omega

theorem getLastD_cons_ne_nil {α : Type} (x d : α) : ∀ (l : List α), l ≠ [] →
    (x :: l).getLastD d = l.getLastD d := by
  intro l h
  cases l with
  | nil => exact absurd rfl h
  | cons y ys => simp [List.getLastD_cons]

theorem splitOnColon_getLast_append : ∀ (a b : List Char), ':' ∉ b →
    (splitOnColon (a ++ ':' :: b)).getLastD [] = b := by
  intro a
  induction a with
  | nil =>
    intro b hb
    show (splitOnColon (':' :: b)).getLastD [] = b
    rw [splitOnColon_cons, if_pos rfl, splitOnColon_no_colon b hb]
    rfl
  | cons c a' ih =>
    intro b hb
    show (splitOnColon (c :: (a' ++ ':' :: b))).getLastD [] = b
    rw [splitOnColon_cons]
    by_cases hc : c = ':'
    · rw [if_pos hc]
      rw [getLastD_cons_ne_nil _ _ _ (splitOnColon_ne_nil (a' ++ ':' :: b))]
      exact ih b hb
    · rw [if_neg hc]
      have h2 := splitOnColon_length_ge_two a' b
      have ihb := ih b hb
      cases hr : splitOnColon (a' ++ ':' :: b) with
      | nil => rw [hr] at h2; simp at h2
      | cons x xs =>
        cases xs with
        | nil => rw [hr] at h2; simp at h2
        | cons y rest =>
          rw [hr] at ihb
          simp only [List.headD_cons, List.tail_cons]
          rw [getLastD_cons_ne_nil _ _ _ (List.cons_ne_nil y rest)]
          rw [getLastD_cons_ne_nil _ _ _ (List.cons_ne_nil y rest)] at ihb
          exact ihb

theorem displayNameOf_append (a b : List Char) (hb : ':' ∉ b) :
    displayNameOf ⟨a ++ ':' :: b⟩ = ⟨b⟩ := by
  unfold displayNameOf
  rw [if_pos (List.mem_append_right a (List.mem_cons_self ':' b))]
  exact congrArg String.mk (splitOnColon_getLast_append a b hb)

theorem displayNameOf_no_colon (id : String) (h : ':' ∉ id.data) : displayNameOf id = id := by
  unfold displayNameOf
  rw [if_neg h]

theorem applyTeam_preserves (tcm : List (String × String)) (tm : Option String)
    (b : AugmentedChallenge) :
    (applyTeam tcm tm b).done = b.done ∧ (applyTeam tcm tm b).name = b.name
    ∧ (applyTeam tcm tm b).icon = b.icon
    ∧ (applyTeam tcm tm b).description = b.description := by
  unfold applyTeam
  repeat' split
  all_goals exact ⟨rfl, rfl, rfl, rfl⟩

theorem applyTeam_empty_map (tm : Option String) (b : AugmentedChallenge) :
    (applyTeam [] tm b).team = "" ∧ (applyTeam [] tm b).team_color = "" := by
  unfold applyTeam
  repeat' split
  all_goals first
  | exact ⟨rfl, rfl⟩
  | simp_all [List.lookup]

theorem augmentOne_fields_no_meta (metadata : Metadata) (tcm : List (String × String))
    (id : String) (ci : ChallengeInput) (h : List.lookup id metadata = none) :
    (augmentOne metadata tcm id ci).name = toTitleCase (displayNameOf id)
    ∧ (augmentOne metadata tcm id ci).description = jsOr ci.description "" := by
  have hb : baseAugment metadata id ci =
      { done := ci.done, name := toTitleCase (displayNameOf id), icon := FALLBACK_ICON,
        description := jsOr ci.description "", team := "", team_color := "" } := by
    unfold baseAugment
    rw [h]
  unfold augmentOne
  rw [hb]
  have hp := applyTeam_preserves tcm ci.team
    { done := ci.done, name := toTitleCase (displayNameOf id), icon := FALLBACK_ICON,
      description := jsOr ci.description "", team := "", team_color := "" }
  exact ⟨hp.2.1, hp.2.2.2⟩

theorem jsOr_ne_empty (v : Option String) (d : String) (hd : d ≠ "") : jsOr v d ≠ "" := by
  cases v with
  | none => exact hd
  | some s =>
    by_cases hs : s = ""
    · rw [jsOr, if_pos hs]; exact hd
    · rw [jsOr, if_neg hs]; exact hs

theorem jsOr_of_falsy (v : Option String) (d : String) (h : jsTruthy v = false) :
    jsOr v d = d := by
  cases v with
  | none => rfl
  | some s =>
    by_cases hs : s = ""
    · rw [jsOr, if_pos hs]
    · simp [jsTruthy, hs] at h

/-- The augmented name falls back to the title-cased display name whenever the
Metadata Store has no truthy `name` for the id: either no entry at all, or an
entry whose `name` field is absent or empty (`metadata.name || toTitleCase(...)`). -/
theorem augmentOne_name_falsy_meta_name (metadata : Metadata) (tcm : List (String × String))
    (id : String) (ci : ChallengeInput)
    (h : ∀ m, List.lookup id metadata = some m → jsTruthy m.name = false) :
    (augmentOne metadata tcm id ci).name = toTitleCase (displayNameOf id) := by
  have hp := applyTeam_preserves tcm ci.team (baseAugment metadata id ci)
  refine hp.2.1.trans ?_
  cases hm : List.lookup id metadata with
  | none =>
    unfold baseAugment
    rw [hm]
  | some m =>
    have hb : (baseAugment metadata id ci).name = jsOr m.name (toTitleCase (displayNameOf id)) := by
      unfold baseAugment
      rw [hm]
    rw [hb, jsOr_of_falsy m.name _ (h m hm)]

theorem trim_cond_eq (v : Option String) :
    (jsTruthy v && jsTrim (v.getD "") != "") = (jsTrim (v.getD "") != "") := by
  cases v with
  | none => decide
  | some s =>
    by_cases hs : s = ""
    · subst hs; decide
    · have h1 : (s != "") = true := bne_iff_ne.mpr hs
      simp [jsTruthy, h1]

/-- Characterization of a valid `/update` request: the snapshot is replaced
and the serialized snapshot is delivered to every registered subscriber. -/
theorem postUpdate_valid (st : ServerState) (title : String)
    (cd : List (String × ChallengeInput)) (tf : Option TeamsField) :
    postUpdate st (some ⟨some title, some (.valid cd), tf⟩)
      = ⟨{ st with
            teams := effectiveTeams tf
            challenge_title := title
            augmented_challenge_list := augmentChallengeData st.metadata cd (effectiveTeams tf) },
         .ok "Challenge list updated.",
         st.subscribers.map (fun s => (s, serializeSnapshot title
            (augmentChallengeData st.metadata cd (effectiveTeams tf)) (effectiveTeams tf)))⟩ := rfl

theorem deliveries_filter_not_mem (msg : String) : ∀ (l : List Nat) (s : Nat), s ∉ l →
    (l.map (fun x => (x, msg))).filter (fun p => p.1 == s) = [] := by
  intro l
  induction l with
  | nil => intro s _; rfl
  | cons a t ih =>
    intro s hs
    have h1 : ¬ s = a := fun hh => hs (List.mem_cons.mpr (Or.inl hh))
    have h2 : s ∉ t := fun hh => hs (List.mem_cons.mpr (Or.inr hh))
    have hba : (a == s) = false := beq_eq_false_iff_ne.mpr (fun hh => h1 hh.symm)
    simp only [List.map_cons, List.filter_cons]
    simp [hba, ih s h2]

theorem deliveries_filter_mem (msg : String) : ∀ (l : List Nat) (s : Nat),
    l.Nodup → s ∈ l →
    (l.map (fun x => (x, msg))).filter (fun p => p.1 == s) = [(s, msg)] := by
  intro l
  induction l with
  | nil => intro s _ hs; cases hs
  | cons a t ih =>
    intro s hnd hs
    rcases List.mem_cons.mp hs with h | h
    · subst h
      have hna : s ∉ t := (List.nodup_cons.mp hnd).1
      simp only [List.map_cons, List.filter_cons]
      simp [deliveries_filter_not_mem msg t s hna]
    · have hne : (a == s) = false := beq_eq_false_iff_ne.mpr
        (fun hh => (List.nodup_cons.mp hnd).1 (by rw [hh]; exact h))
      simp only [List.map_cons, List.filter_cons]
      simp [hne, ih s (List.nodup_cons.mp hnd).2 h]

/-- C1 amended: when processing of `/update` raises an unexpected exception
during augmentation (here: `challenges` holds a null-like value so
`Object.entries` throws), the handler answers the generic 400
`Malformed JSON.` and the augmented challenge map and subscriber set are left
unchanged, but `challenge_title` and `TEAM_INFO.teams` have already been
replaced at that point, so a reader can observe the new title together with
the old challenge map. -/
theorem update_exception_partial_mutation (st : ServerState) (title : String)
    (tf : Option TeamsField) :
    postUpdate st (some ⟨some title, some .nullLike, tf⟩)
      = ⟨{ st with
            teams := effectiveTeams tf
            challenge_title := title },
         .badRequest "Malformed JSON.", []⟩ := rfl

/-- C1 counterexample: from `preState` (title `OLD`), the request with title
`NEW` and a null `challenges` value makes augmentation throw; the handler
answers 400 as the claim says, but the resulting state is NOT the
pre-request state: the title is already `NEW` while the challenge map is
still the old one — exactly the mix the claim rules out. -/
theorem update_exception_mixed_state_cx :
    (postUpdate preState (some ⟨some "NEW", some .nullLike, none⟩)).response
        = .badRequest "Malformed JSON."
    ∧ (postUpdate preState (some ⟨some "NEW", some .nullLike, none⟩)).state.challenge_title
        = "NEW"
    ∧ (postUpdate preState (some ⟨some "NEW", some .nullLike, none⟩)).state.augmented_challenge_list
        = preState.augmented_challenge_list
    ∧ (postUpdate preState (some ⟨some "NEW", some .nullLike, none⟩)).state ≠ preState := by
  refine ⟨rfl, rfl, rfl, ?_⟩
  decide

/-- C2 counterexample: for id `x` with no metadata entry and input description
`"  "` (whitespace-only), the augmented description is `"  "` itself — the
whitespace-only input IS used as the output description, contradicting the
claim that it never is. -/
theorem whitespace_description_kept_without_metadata_cx :
    ((augmentChallengeData [] [("x", ⟨true, some "  ", none⟩)] none).lookup "x").map
        AugmentedChallenge.description = some "  "
    ∧ ((augmentChallengeData [] [("x", ⟨true, some "  ", none⟩)] none).lookup "x").map
        AugmentedChallenge.description ≠ some "" := by
  exact ⟨rfl, by decide⟩

/-- C2 amended: the description produced by augmentation always equals
`amendedDescriptionRule` — the claimed trimming priority holds when a
metadata entry exists, but with no metadata entry a truthy caller
description is passed through untrimmed. -/
theorem description_resolution_amended (metadata : Metadata) (tcm : List (String × String))
    (id : String) (ci : ChallengeInput) :
    (augmentOne metadata tcm id ci).description
      = amendedDescriptionRule metadata id ci.description := by
  have hp := applyTeam_preserves tcm ci.team (baseAugment metadata id ci)
  have hd : (baseAugment metadata id ci).description
      = amendedDescriptionRule metadata id ci.description := by
    unfold baseAugment amendedDescriptionRule
    cases hm : List.lookup id metadata with
    | none => rfl
    | some m =>
      simp only [trim_cond_eq ci.description]
  exact hp.2.2.2.trans hd

/-- C3: with teams `[Red (no color), Blue #000]` supplied to `/update`, a
challenge on team Blue gets `team_color` `#000`; one on team Red gets the
first default palette color; one on unmatched team Green gets empty team
fields; and any challenge of any update without a teams list gets
`team = "" ∧ team_color = ""`. -/
theorem team_resolution :
    (((postUpdate preState (some ⟨some "T",
        some (.valid [("cb", ⟨true, none, some "Blue"⟩),
                      ("cr", ⟨true, none, some "Red"⟩),
                      ("cg", ⟨true, none, some "Green"⟩)]),
        some (.arr [⟨some "Red", none⟩, ⟨some "Blue", some "#000"⟩])⟩)).state.augmented_challenge_list.lookup
        "cb").map (fun a => (a.team, a.team_color)) = some ("Blue", "#000"))
    ∧ (((postUpdate preState (some ⟨some "T",
        some (.valid [("cb", ⟨true, none, some "Blue"⟩),
                      ("cr", ⟨true, none, some "Red"⟩),
                      ("cg", ⟨true, none, some "Green"⟩)]),
        some (.arr [⟨some "Red", none⟩, ⟨some "Blue", some "#000"⟩])⟩)).state.augmented_challenge_list.lookup
        "cr").map (fun a => (a.team, a.team_color)) = some ("Red", DEFAULT_TEAM_COLORS.getD 0 ""))
    ∧ (((postUpdate preState (some ⟨some "T",
        some (.valid [("cb", ⟨true, none, some "Blue"⟩),
                      ("cr", ⟨true, none, some "Red"⟩),
                      ("cg", ⟨true, none, some "Green"⟩)]),
        some (.arr [⟨some "Red", none⟩, ⟨some "Blue", some "#000"⟩])⟩)).state.augmented_challenge_list.lookup
        "cg").map (fun a => (a.team, a.team_color)) = some ("", ""))
    ∧ (∀ (st : ServerState) (title : String) (cd : List (String × ChallengeInput))
        (p : String × AugmentedChallenge),
        p ∈ (postUpdate st (some ⟨some title, some (.valid cd), none⟩)).state.augmented_challenge_list →
        p.2.team = "" ∧ p.2.team_color = "") := by
  refine ⟨rfl, rfl, rfl, ?_⟩
  intro st title cd p hp
  have hp' : p ∈ augmentChallengeData st.metadata cd none := hp
  simp only [augmentChallengeData] at hp'
  obtain ⟨q, hq, hqe⟩ := List.mem_map.mp hp'
  rw [← hqe]
  exact applyTeam_empty_map q.2.team (baseAugment st.metadata q.1 q.2)

theorem team_resolution_witness :
    (augmentOne [] [] "k" ⟨true, none, some "Blue"⟩).team = ""
    ∧ (augmentOne [] [] "k" ⟨true, none, some "Blue"⟩).team_color = "" :=
  team_resolution.2.2.2 preState "T" [("k", ⟨true, none, some "Blue"⟩)]
    ("k", augmentOne [] [] "k" ⟨true, none, some "Blue"⟩)
    (List.mem_singleton.mpr rfl)

/-- C4: the title-case rule upper-cases the first character and lower-cases
the remainder of the whole string (not per word); in particular the fallback
name for id `nether_star` with no metadata entry is exactly `Nether_star`. -/
theorem title_case_whole_string :
    (∀ (s : String), toTitleCase s
        = ⟨(s.data.take 1).map Char.toUpper ++ (s.data.drop 1).map Char.toLower⟩)
    ∧ augmentChallengeData [] [("nether_star", ⟨false, none, none⟩)] none
        = [("nether_star", ⟨false, "Nether_star", FALLBACK_ICON, "", "", ""⟩)] := by
  constructor
  · intro s
    cases s with
    | mk l =>
      cases l with
      | nil => rfl
      | cons c cs => rfl
  · rfl

/-- C5: when a challenge id contains a colon and has no metadata name — no
metadata entry at all, or an entry whose `name` field is absent or empty —
the augmented name is the title-cased substring after the LAST colon (for
any prefix `a`, even one containing colons itself, and colon-free suffix
`b`); when the id contains no colon, the whole id is title-cased. -/
theorem display_name_after_last_colon :
    (∀ (metadata : Metadata) (tcm : List (String × String)) (ci : ChallengeInput)
        (a b : List Char), ':' ∉ b →
        (∀ m, List.lookup (⟨a ++ ':' :: b⟩ : String) metadata = some m →
          jsTruthy m.name = false) →
        (augmentOne metadata tcm ⟨a ++ ':' :: b⟩ ci).name = toTitleCase ⟨b⟩)
    ∧ (∀ (metadata : Metadata) (tcm : List (String × String)) (ci : ChallengeInput)
        (id : String), ':' ∉ id.data →
        (∀ m, List.lookup id metadata = some m → jsTruthy m.name = false) →
        (augmentOne metadata tcm id ci).name = toTitleCase id) := by
  constructor
  · intro md tcm ci a b hb hmd
    rw [augmentOne_name_falsy_meta_name md tcm _ ci hmd, displayNameOf_append a b hb]
  · intro md tcm ci id hid hmd
    rw [augmentOne_name_falsy_meta_name md tcm id ci hmd, displayNameOf_no_colon id hid]

theorem display_name_after_last_colon_witness :
    (augmentOne [("mc:ns", ⟨none, none, none⟩)] [] (⟨['m', 'c', ':', 'n', 's']⟩ : String)
        ⟨true, none, none⟩).name = toTitleCase ⟨['n', 's']⟩ :=
  display_name_after_last_colon.1 [("mc:ns", ⟨none, none, none⟩)] [] ⟨true, none, none⟩
    ['m', 'c'] ['n', 's'] (by decide)
    (fun m hm => by
      have h2 : (⟨none, none, none⟩ : MetaEntry) = m := Option.some.inj hm
      rw [← h2]
      rfl)

/-- C6: a supplied `teams` array whose length is not 2, or a non-array
`teams` value, makes `/update` behave exactly as if `teams` were omitted:
same resulting state, response and broadcast, with null stored teams, and
the request still succeeds with 200 OK. -/
theorem teams_length_validation (st : ServerState) (title : String)
    (cd : List (String × ChallengeInput)) (ts : List RawTeam) (h : ts.length ≠ 2) :
    postUpdate st (some ⟨some title, some (.valid cd), some (.arr ts)⟩)
      = postUpdate st (some ⟨some title, some (.valid cd), none⟩)
    ∧ postUpdate st (some ⟨some title, some (.valid cd), some .nonArray⟩)
      = postUpdate st (some ⟨some title, some (.valid cd), none⟩)
    ∧ (postUpdate st (some ⟨some title, some (.valid cd), some (.arr ts)⟩)).state.teams = none
    ∧ (postUpdate st (some ⟨some title, some (.valid cd), some (.arr ts)⟩)).response
        = .ok "Challenge list updated." := by
  have he : effectiveTeams (some (.arr ts)) = none := by
    simp only [effectiveTeams, if_neg h]
  have hn : effectiveTeams (none : Option TeamsField) = none := rfl
  refine ⟨?_, rfl, he, rfl⟩
  have h2 := postUpdate_valid st title cd (some (.arr ts))
  have h3 := postUpdate_valid st title cd none
  rw [he] at h2
  rw [hn] at h3
  exact h2.trans h3.symm

theorem teams_length_validation_witness :
    (postUpdate preState (some ⟨some "T", some (.valid []),
        some (.arr [⟨none, none⟩])⟩)).state.teams = none :=
  (teams_length_validation preState "T" [] [⟨none, none⟩] (by decide)).2.2.1

/-- C7: the augmentation function is deterministic — two calls on equal
metadata stores, equal challenge maps and equal team info produce equal
output (purity holds by construction of the embedding: `augmentChallengeData`
is a function of exactly these three inputs and touches nothing else). -/
theorem augment_deterministic (md md' : Metadata)
    (cd cd' : List (String × ChallengeInput)) (ts ts' : Option (List Team))
    (h1 : md = md') (h2 : cd = cd') (h3 : ts = ts') :
    augmentChallengeData md cd ts = augmentChallengeData md' cd' ts' := by
  rw [h1, h2, h3]

theorem augment_deterministic_witness :
    augmentChallengeData [] [("a", ⟨true, none, none⟩)] none
      = augmentChallengeData [] [("a", ⟨true, none, none⟩)] none :=
  augment_deterministic [] [] [("a", ⟨true, none, none⟩)] [("a", ⟨true, none, none⟩)]
    none none rfl rfl rfl

/-- C8: a `POST /update` whose body is the empty object returns the 400
missing-keys error and leaves the whole stored state untouched, with no
message broadcast, so any later reader still sees the pre-existing snapshot. -/
theorem empty_body_rejected (st : ServerState) :
    postUpdate st (some ⟨none, none, none⟩)
      = ⟨st, .badRequest "Missing \x27title\x27 or \x27challenges\x27 in request data.", []⟩
    ∧ (postUpdate st (some ⟨none, none, none⟩)).response.status = 400 := ⟨rfl, rfl⟩

/-- C9: one successful `/update` delivers exactly one message — the
JSON-serialized new snapshot — to each registered subscriber, and no message
to a subscriber deregistered before the publish. -/
theorem update_fanout_exactly_once (st : ServerState) (title : String)
    (cd : List (String × ChallengeInput)) (tf : Option TeamsField) (s d : Nat)
    (hnd : st.subscribers.Nodup) (hs : s ∈ st.subscribers) :
    (postUpdate st (some ⟨some title, some (.valid cd), tf⟩)).deliveries.filter
        (fun p => p.1 == s)
      = [(s, serializeSnapshot title
            (augmentChallengeData st.metadata cd (effectiveTeams tf)) (effectiveTeams tf))]
    ∧ (postUpdate (unsubscribe st d) (some ⟨some title, some (.valid cd), tf⟩)).deliveries.filter
        (fun p => p.1 == d) = [] := by
  constructor
  · exact deliveries_filter_mem _ st.subscribers s hnd hs
  · exact deliveries_filter_not_mem _ (st.subscribers.erase d) d hnd.not_mem_erase

theorem update_fanout_exactly_once_witness :
    (postUpdate subsState (some ⟨some "T", some (.valid []), none⟩)).deliveries.filter
        (fun p => p.1 == 2)
      = [(2, serializeSnapshot "T"
            (augmentChallengeData subsState.metadata [] (effectiveTeams none)) (effectiveTeams none))]
    ∧ (postUpdate (unsubscribe subsState 4) (some ⟨some "T", some (.valid []), none⟩)).deliveries.filter
        (fun p => p.1 == 4) = [] :=
  update_fanout_exactly_once subsState "T" [] none 2 4 (by decide) (by decide)

/-- C10: an accepted two-entry teams array is stored with defaults filled
in — a falsy name becomes `Team A` / `Team B` by index, a falsy color the
default palette color for the index — so every stored team has a non-empty
name and color. -/
theorem team_defaults_applied (st : ServerState) (title : String)
    (cd : List (String × ChallengeInput)) (t0 t1 : RawTeam) :
    (postUpdate st (some ⟨some title, some (.valid cd), some (.arr [t0, t1])⟩)).state.teams
      = some [⟨jsOr t0.name "Team A", jsOr t0.color (DEFAULT_TEAM_COLORS.getD 0 "")⟩,
              ⟨jsOr t1.name "Team B", jsOr t1.color (DEFAULT_TEAM_COLORS.getD 1 "")⟩]
    ∧ ∀ tl, (postUpdate st (some ⟨some title, some (.valid cd), some (.arr [t0, t1])⟩)).state.teams
          = some tl → ∀ t ∈ tl, t.name ≠ "" ∧ t.color ≠ "" := by
  constructor
  · rfl
  · intro tl htl t ht
    have h1 : (postUpdate st (some ⟨some title, some (.valid cd), some (.arr [t0, t1])⟩)).state.teams
        = some [⟨jsOr t0.name "Team A", jsOr t0.color (DEFAULT_TEAM_COLORS.getD 0 "")⟩,
                ⟨jsOr t1.name "Team B", jsOr t1.color (DEFAULT_TEAM_COLORS.getD 1 "")⟩] := rfl
    rw [htl] at h1
    have h2 := Option.some.inj h1
    subst h2
    rcases List.mem_cons.mp ht with hh | hh
    · subst hh
      exact ⟨jsOr_ne_empty _ _ (by decide), jsOr_ne_empty _ _ (by decide)⟩
    · rcases List.mem_cons.mp hh with hh2 | hh2
      · subst hh2
        exact ⟨jsOr_ne_empty _ _ (by decide), jsOr_ne_empty _ _ (by decide)⟩
      · exact absurd hh2 (List.not_mem_nil t)

theorem team_defaults_applied_witness :
    (⟨"Team A", "#229cc5"⟩ : Team).name ≠ "" ∧ (⟨"Team A", "#229cc5"⟩ : Team).color ≠ "" :=
  (team_defaults_applied preState "T" [] ⟨none, none⟩ ⟨none, none⟩).2
    [⟨"Team A", "#229cc5"⟩, ⟨"Team B", "#d1433b"⟩] rfl
    ⟨"Team A", "#229cc5"⟩ (List.mem_cons.mpr (Or.inl rfl))

end MCServer
